import Mathlib

set_option maxRecDepth 100000

/-! Shallow embedding of the semantic chunk index and retrieval engine:
`src/backend/rag/vector_store.py` (class `VectorStore`) and
`src/backend/rag/retriever.py` (class `RAGRetriever`).
Python `str` values are modelled as `List Char`, embedding vectors as `List ℚ`,
file bytes as `List Nat`.  A raised Python exception is modelled by `Option`:
`none` where the source raises past the caller. -/

/-- Python str.lstrip step used by strip: drop leading whitespace characters. -/
def pyStripL (t : List Char) : List Char := t.dropWhile (fun c => c.isWhitespace)

/-- Python str.strip (vector_store.py line 191): drop leading and trailing whitespace. -/
def pyStrip (t : List Char) : List Char := (pyStripL ((pyStripL t).reverse)).reverse

/-- Python text[s:e] slice for nonnegative bounds, clamped at the text length. -/
def pySlice (t : List Char) (s e : Nat) : List Char := (t.drop s).take (e - s)

/-- The sentence terminators searched for at vector_store.py lines 183-185. -/
def isTerminator (c : Char) : Bool := c == '.' || c == '!' || c == '?'

/-- Position of the last sentence terminator in text[s:e), the combined value of the
three Python rfind calls at vector_store.py lines 182-186; `none` corresponds to the
Python value -1 (no terminator found). -/
def lastTerm (t : List Char) (s e : Nat) : Option Nat :=
  ((List.range' s (e - s)).filter (fun i => isTerminator (t.getD i ' '))).getLast?

/-- The cut position for the window starting at `start` (vector_store.py lines 177-189):
`start + cs`, moved to just after the last sentence terminator of the window when one
occurs past the window midpoint and the window does not already reach the end of text. -/
def computeEnd (t : List Char) (cs start : Nat) : Nat :=
  let e0 := start + cs
  if e0 < t.length then
    match lastTerm t start e0 with
    | some se => if start + cs / 2 < se then se + 1 else e0
    | none => e0
  else e0

/-- The while loop of chunk_text (vector_store.py lines 176-198), recorded as the raw
(start, end) windows it cuts, before each window is stripped and empty results are
dropped at lines 191-193.  The Python loop has no structural termination measure (the
start can fail to advance), so the model is driven by explicit fuel; `none` models a
run that consumes all fuel. -/
def windowsLoop (t : List Char) (cs ov : Nat) : Nat → Nat → Option (List (Nat × Nat))
  | 0, _ => none
  | fuel + 1, start =>
    let e := computeEnd t cs start
    let s' := e - ov
    if t.length ≤ s' then some [(start, e)]
    else
      match windowsLoop t cs ov fuel s' with
      | some ws => some ((start, e) :: ws)
      | none => none

/-- VectorStore.chunk_text (vector_store.py lines 158-200).  A text no longer than
`cs` is returned whole (lines 170-171, unstripped); otherwise the loop windows are
cut, each window slice is stripped, and empty results are dropped.  The fuel
`t.length + 1` suffices whenever the window start strictly advances each iteration. -/
def chunk_text (t : List Char) (cs ov : Nat) : Option (List (List Char)) :=
  if t.length ≤ cs then some [t]
  else
    match windowsLoop t cs ov (t.length + 1) 0 with
    | some ws => some ((ws.map (fun w => pyStrip (pySlice t w.1 w.2))).filter (fun c => !c.isEmpty))
    | none => none

/-- Concatenation of chunks with the overlapping prefixes removed: the first piece
whole, every later piece with its first `ov` characters dropped (the reconstruction
reading of the chunk-coverage contract). -/
def reconstruct (ov : Nat) (pieces : List (List Char)) : List Char :=
  match pieces with
  | [] => []
  | p :: rest => p ++ (rest.map (fun q => q.drop ov)).flatten

/-- External behavior visible to the store during one call: `enc` is the encoder
(sentence-transformers encode followed by the L2 normalization of vector_store.py
lines 234/280, so it yields the normalized vector; `none` models a raised exception,
including an unavailable backend), `fs` is the filesystem (bytes of the file at a
path; `none` when the file cannot be opened), and `md5` is the content fingerprint
computed over file bytes by _get_file_hash (lines 98-101).  The fingerprint is kept
abstract as a function of the bytes: the source uses it only as a content identity. -/
structure Env where
  enc : List Char → Option (List ℚ)
  fs : String → Option (List Nat)
  md5 : List Nat → List Nat

/-- One chunk's metadata dict as built at vector_store.py lines 242-249. -/
structure ChunkMeta where
  file_path : String
  file_hash : List Nat
  chunk_id : Nat
  chunk_index : Nat
  total_chunks : Nat
  extra : List (String × String)
  deriving DecidableEq

/-- In-memory state of VectorStore: the parallel documents and metadata arrays and
the FAISS index modelled as the list of stored vectors; `none` is Python's
`self.index = None`. -/
structure VectorStore where
  documents : List (List Char)
  metadata : List ChunkMeta
  index : Option (List (List ℚ))
  deriving DecidableEq

/-- The store right after _reset_index (vector_store.py lines 152-156). -/
def emptyStore : VectorStore := { documents := [], metadata := [], index := none }

/-- The store invariant of spec section 3: documents, metadata and the index have
equal lengths (an absent index holds zero vectors). -/
def storeInv (s : VectorStore) : Prop :=
  s.documents.length = s.metadata.length ∧ s.metadata.length = (s.index.getD []).length

instance (s : VectorStore) : Decidable (storeInv s) := by unfold storeInv; infer_instance

/-- One batched encoder call (vector_store.py lines 231 and 346): every text encoded,
or `none` when the encoder raises. -/
def encodeAll (enc : List Char → Option (List ℚ)) : List (List Char) → Option (List (List ℚ))
  | [] => some []
  | c :: rest =>
    match enc c, encodeAll enc rest with
    | some v, some vs => some (v :: vs)
    | _, _ => none

/-- VectorStore.add_document (vector_store.py lines 202-256).  The second component
is `some b` for a boolean return and `none` for a raised exception; the first is the
store state afterwards (every raise in the source happens before any mutation).  The
dedup hash is computed by _get_file_hash from the bytes of the file on disk at
`file_path` (lines 98-101 and 218), not from `content`.  Chunking runs with the
default arguments 512 and 50 (line 227); the unreachable fuel-exhaustion branch of
the chunker is mapped to a raise. -/
def add_document (env : Env) (s : VectorStore) (file_path : String) (content : List Char)
    (extra : List (String × String)) : VectorStore × Option Bool :=
  match env.fs file_path with
  | none => (s, none)
  | some bytes =>
    let h := env.md5 bytes
    if s.metadata.any (fun m => m.file_hash == h) then (s, some false)
    else
      match chunk_text content 512 50 with
      | none => (s, none)
      | some chunks =>
        match encodeAll env.enc chunks with
        | none => (s, none)
        | some embs =>
          let n0 := s.documents.length
          ({ documents := s.documents ++ chunks
           , metadata := s.metadata ++ chunks.enum.map (fun p =>
               { file_path := file_path, file_hash := h, chunk_id := n0 + p.1
               , chunk_index := p.1, total_chunks := chunks.length, extra := extra })
           , index := some (s.index.getD [] ++ embs) }, some true)

/-- Indices of the chunks whose metadata carries this file path
(vector_store.py lines 326-329). -/
def delPositions (s : VectorStore) (file_path : String) : List Nat :=
  (s.metadata.enum.filter (fun p => p.2.file_path == file_path)).map (fun p => p.1)

/-- Removal of the listed positions from a list: the net effect of the descending
del statements at vector_store.py lines 336-338. -/
def dropIdxs (l : List α) (idxs : List Nat) : List α :=
  (l.enum.filter (fun p => !(idxs.contains p.1))).map (fun p => p.2)

/-- VectorStore.delete_document (vector_store.py lines 314-365).  The whole body runs
inside try/except, so the call never raises.  When the re-embedding of the surviving
documents raises (line 346, or the encoder fails to load at line 343), the except
block returns false with the arrays already shrunk and the index left as it was -
exactly the state the source leaves behind.  When no document survives, the index is
set to None and the arrays reset (lines 352-355). -/
def delete_document (env : Env) (s : VectorStore) (file_path : String) : VectorStore × Bool :=
  let poss := delPositions s file_path
  if poss.isEmpty then (s, false)
  else
    let docs' := dropIdxs s.documents poss
    let metas' := dropIdxs s.metadata poss
    if docs'.isEmpty then (emptyStore, true)
    else
      match encodeAll env.enc docs' with
      | none => ({ documents := docs', metadata := metas', index := s.index }, false)
      | some embs => ({ documents := docs', metadata := metas', index := some embs }, true)

/-- Inner product of two embedding vectors: the score computed by faiss.IndexFlatIP. -/
def dot (u v : List ℚ) : ℚ := (List.zipWith (fun a b => a * b) u v).sum

/-- Descending-score order on (score, position) candidates. -/
def scoreRel (p q : ℚ × Nat) : Prop := q.1 ≤ p.1

instance : DecidableRel scoreRel := fun p q => inferInstanceAs (Decidable (q.1 ≤ p.1))

instance : IsTotal (ℚ × Nat) scoreRel := ⟨fun a b => le_total b.1 a.1⟩

instance : IsTrans (ℚ × Nat) scoreRel := ⟨fun _ _ _ h1 h2 => le_trans h2 h1⟩

/-- Exact inner-product search of faiss.IndexFlatIP (vector_store.py line 283): every
stored vector is scored against the query and the m best are returned in descending
score order. -/
def faissSearch (vecs : List (List ℚ)) (qv : List ℚ) (m : Nat) : List (ℚ × Nat) :=
  (List.insertionSort scoreRel (vecs.enum.map (fun p => (dot qv p.2, p.1)))).take m

/-- One search hit as assembled at vector_store.py lines 288-292. -/
structure SearchResult where
  content : List Char
  score : ℚ
  metadata : ChunkMeta
  deriving DecidableEq

/-- Fallback metadata for an out-of-range lookup; unreachable when the store
invariant holds (Python would raise there and the except block would return []). -/
def defaultMeta : ChunkMeta :=
  { file_path := "", file_hash := [], chunk_id := 0, chunk_index := 0
  , total_chunks := 0, extra := [] }

/-- VectorStore.search (vector_store.py lines 258-297).  The body runs inside
try/except and returns [] on an empty store and on any internal failure (a raise
at lines 278-279, index missing at line 283); results below the score threshold
are filtered out at line 287.  This definition keeps the success path of lines
279-294.  Note that as the module is written, `torch` is bound only inside
function bodies (lines 23 and 83), never at module scope, so line 278
`with torch.no_grad():` raises NameError on every call that reaches it: the
realized behavior is always the [] branch, i.e. the environment whose encoder
raises.  The success path is kept as an over-approximation - every theorem below
that is universal over `env` therefore also covers the realized behavior - and
`search_as_run` further down is the as-executed function. -/
def search (env : Env) (s : VectorStore) (q : List Char) (k : Nat) (t : ℚ) :
    List SearchResult :=
  if s.documents.length = 0 then []
  else
    match env.enc q with
    | none => []
    | some qv =>
      match s.index with
      | none => []
      | some vecs =>
        let ranked := faissSearch vecs qv (min k s.documents.length)
        (ranked.filter (fun p => t ≤ p.1)).map (fun p =>
          { content := s.documents.getD p.2 [], score := p.1
          , metadata := s.metadata.getD p.2 defaultMeta })

/-- The three artifacts _save_index writes together (vector_store.py lines 130-150). -/
structure Persisted where
  index : List (List ℚ)
  metadata : List ChunkMeta
  documents : List (List Char)
  deriving DecidableEq

/-- On-disk state of the store directory; `none` when the artifacts are absent or
unreadable (the load path then resets, lines 123-128). -/
abbrev Disk := Option Persisted

/-- VectorStore._save_index (vector_store.py lines 130-150).  faiss.write_index runs
first and raises when self.index is None; the except block at line 149 swallows the
error, so in that case nothing on disk changes. -/
def save_index (s : VectorStore) (d : Disk) : Disk :=
  match s.index with
  | none => d
  | some vecs => some { index := vecs, metadata := s.metadata, documents := s.documents }

/-- VectorStore._load_index (vector_store.py lines 103-128): load the three artifacts
as a unit when present, otherwise (or on a parse failure, modelled by an absent disk)
reset to the empty store. -/
def load_index (d : Disk) : VectorStore :=
  match d with
  | none => emptyStore
  | some p => { documents := p.documents, metadata := p.metadata, index := some p.index }

/-- add_document together with the write-through persistence performed on its success
path (vector_store.py line 253); the duplicate and raising paths do not save. -/
def add_documentD (env : Env) (sd : VectorStore × Disk) (file_path : String)
    (content : List Char) (extra : List (String × String)) :
    (VectorStore × Disk) × Option Bool :=
  let r := add_document env sd.1 file_path content extra
  match r.2 with
  | some true => ((r.1, save_index r.1 sd.2), some true)
  | _ => ((r.1, sd.2), r.2)

/-- delete_document together with the persistence on its true-returning paths
(vector_store.py line 358); the caught-exception path returns before saving. -/
def delete_documentD (env : Env) (sd : VectorStore × Disk) (file_path : String) :
    (VectorStore × Disk) × Bool :=
  let r := delete_document env sd.1 file_path
  if r.2 then ((r.1, save_index r.1 sd.2), true) else ((r.1, sd.2), false)

/-- One mutating call on the store. -/
inductive Op where
  | add (file_path : String) (content : List Char) (extra : List (String × String))
  | del (file_path : String)

/-- A call paired with the external behavior (encoder, filesystem) in effect at that
call: the real encoder can fail at one call and succeed at another. -/
abbrev Step := Env × Op

/-- Apply one mutating call to the in-memory store state. -/
def applyStep (s : VectorStore) (st : Step) : VectorStore :=
  match st.2 with
  | .add fp c extra => (add_document st.1 s fp c extra).1
  | .del fp => (delete_document st.1 s fp).1

/-- Apply a sequence of mutating calls in order. -/
def runSteps (s : VectorStore) (steps : List Step) : VectorStore :=
  steps.foldl applyStep s

/-- True when the step cannot hit the one unprotected failure point: a
delete_document whose re-embedding of the surviving documents raises
(add_document mutates nothing before any of its raise points, so adds are always
clean). -/
def stepClean (s : VectorStore) (st : Step) : Bool :=
  match st.2 with
  | .add _ _ _ => true
  | .del fp =>
    let poss := delPositions s fp
    let docs' := dropIdxs s.documents poss
    poss.isEmpty || docs'.isEmpty || (encodeAll st.1.enc docs').isSome

/-- True when every step of the sequence is clean in the state it runs in. -/
def cleanSteps : VectorStore → List Step → Bool
  | _, [] => true
  | s, st :: rest => stepClean s st && cleanSteps (applyStep s st) rest

/-- One source record (retriever.py lines 59-64); the dict lookups with defaults are
modelled by the record fields. -/
structure Source where
  file_path : String
  chunk_index : Nat
  score : ℚ
  deriving DecidableEq

/-- Build the source record for one included chunk. -/
def mkSource (r : SearchResult) : Source :=
  { file_path := r.metadata.file_path, chunk_index := r.metadata.chunk_index
  , score := r.score }

/-- The document tag prepended to chunk i (retriever.py line 55). -/
def docMarker (i : Nat) : List Char :=
  ("[Document ".toList) ++ (toString (i + 1)).toList ++ ("] ".toList)

/-- The context assembly loop of retrieve_context (retriever.py lines 42-64) over the
enumerated results: chunks are appended greedily; the break guard at line 51 compares
the budget against current_length, which counts only the raw chunk content lengths -
the document markers and the join separators are not counted.  Returns
(context_parts, sources, current_length). -/
def assemble (maxLen : Nat) : List (Nat × SearchResult) → List (List Char) → List Source →
    Nat → List (List Char) × List Source × Nat
  | [], parts, sources, curLen => (parts, sources, curLen)
  | (i, r) :: rest, parts, sources, curLen =>
    if maxLen < curLen + r.content.length ∧ parts ≠ [] then (parts, sources, curLen)
    else
      assemble maxLen rest (parts ++ [docMarker i ++ r.content])
        (sources ++ [mkSource r]) (curLen + r.content.length)

/-- The dictionary retrieve_context returns (retriever.py lines 33-39 and 68-74); on
the empty-result path the source omits total_context_length, modelled here as 0. -/
structure RetrievedContext where
  context : List Char
  sources : List Source
  numChunks : Nat
  query : List Char
  totalContextLength : Nat
  deriving DecidableEq

/-- RAGRetriever.retrieve_context after its search call (retriever.py lines 33-74),
as a function of the ranked result list: assemble the parts and join with a blank
line (line 66). -/
def retrieveFromResults (results : List SearchResult) (q : List Char) (maxLen : Nat) :
    RetrievedContext :=
  if results.isEmpty then
    { context := [], sources := [], numChunks := 0, query := q, totalContextLength := 0 }
  else
    let a := assemble maxLen results.enum [] [] 0
    let ctx := List.intercalate ("\n\n".toList) a.1
    { context := ctx, sources := a.2.1, numChunks := a.1.length, query := q
    , totalContextLength := ctx.length }

/-- RAGRetriever.retrieve_context (retriever.py lines 18-74): search with the fixed
threshold 0.2 (line 31), then assemble the context. -/
def retrieve_context (env : Env) (s : VectorStore) (q : List Char) (maxChunks : Nat)
    (maxLen : Nat) : RetrievedContext :=
  retrieveFromResults (search env s q maxChunks (1 / 5)) q maxLen

/-- Concatenation of the later pieces of a window list, each with its first ov
characters dropped: the tail shape of `reconstruct` over raw window slices. -/
def reconTail (t : List Char) (ov : Nat) (ws : List (Nat × Nat)) : List Char :=
  (ws.map (fun w => (pySlice t w.1 w.2).drop ov)).flatten

/-- Dropping ov characters from a slice moves its left edge right by ov. -/
theorem pySlice_drop (t : List Char) (s e ov : Nat) :
    (pySlice t s e).drop ov = pySlice t (s + ov) e := by
  unfold pySlice
  rw [List.drop_take, List.drop_drop, Nat.sub_sub]

/-- A slice reaching past the end of the text is just the tail from its start. -/
theorem pySlice_of_le (t : List Char) (s e : Nat) (h : t.length ≤ e) :
    pySlice t s e = t.drop s := by
  unfold pySlice
  refine List.take_of_length_le ?_
  simp only [List.length_drop]
  omega

/-- A slice followed by the rest of the text from the slice's end is the tail from
the slice's start. -/
theorem pySlice_append_drop (t : List Char) (s e : Nat) (h : s ≤ e) :
    pySlice t s e ++ t.drop e = t.drop s := by
  unfold pySlice
  have h1 : t.drop e = (t.drop s).drop (e - s) := by
    rw [List.drop_drop]
    congr 1
    omega
  rw [h1, List.take_append_drop]

/-- Lower bound on the cut position: under the termination-sufficient parameters the
window end lies at least ov + 1 past the window start, in every branch of the cut
computation. -/
theorem computeEnd_lb (t : List Char) (cs ov start : Nat) (hov : ov < cs)
    (hov2 : ov ≤ cs / 2 + 1) : start + ov + 1 ≤ computeEnd t cs start := by
  unfold computeEnd
  dsimp only
  split
  · cases hlt : lastTerm t start (start + cs) with
    | none =>
      show start + ov + 1 ≤ start + cs
      omega
    | some se =>
      show start + ov + 1 ≤ if start + cs / 2 < se then se + 1 else start + cs
      split
      · omega
      · omega
  · omega

/-- With fuel at least the distance to the end of the text, the chunking loop
terminates (under the parameters that make the start strictly advance). -/
theorem windowsLoop_isSome (t : List Char) (cs ov : Nat) (hov : ov < cs)
    (hov2 : ov ≤ cs / 2 + 1) :
    ∀ fuel start, start < t.length → t.length ≤ start + fuel →
      (windowsLoop t cs ov fuel start).isSome := by
  intro fuel
  induction fuel with
  | zero => intro start h1 h2; omega
  | succ n ih =>
    intro start h1 h2
    simp only [windowsLoop]
    split
    · rfl
    · next hend =>
      have hlb := computeEnd_lb t cs ov start hov hov2
      have h3 : computeEnd t cs start - ov < t.length := by omega
      have h4 := ih (computeEnd t cs start - ov) h3 (by omega)
      obtain ⟨ws, hws⟩ := Option.isSome_iff_exists.mp h4
      rw [hws]
      rfl

/-- The tail reconstruction of the windows produced from position start is exactly
the text from position start + ov on. -/
theorem reconTail_windows (t : List Char) (cs ov : Nat) (hov : ov < cs)
    (hov2 : ov ≤ cs / 2 + 1) :
    ∀ fuel start ws, start < t.length → windowsLoop t cs ov fuel start = some ws →
      reconTail t ov ws = t.drop (start + ov) := by
  intro fuel
  induction fuel with
  | zero => intro start ws _ h2; simp [windowsLoop] at h2
  | succ n ih =>
    intro start ws h1 h2
    have hlb := computeEnd_lb t cs ov start hov hov2
    simp only [windowsLoop] at h2
    split at h2
    · next hend =>
      cases h2
      show (pySlice t start (computeEnd t cs start)).drop ov ++ [].flatten
          = t.drop (start + ov)
      rw [List.flatten_nil, List.append_nil, pySlice_drop]
      exact pySlice_of_le t _ _ (by omega)
    · next hend =>
      cases hrec : windowsLoop t cs ov n (computeEnd t cs start - ov) with
      | none => rw [hrec] at h2; cases h2
      | some ws' =>
        rw [hrec] at h2
        cases h2
        have ih' := ih (computeEnd t cs start - ov) ws' (by omega) hrec
        show (pySlice t start (computeEnd t cs start)).drop ov ++ reconTail t ov ws'
            = t.drop (start + ov)
        rw [ih', pySlice_drop]
        have he : computeEnd t cs start - ov + ov = computeEnd t cs start := by omega
        rw [he]
        exact pySlice_append_drop t _ _ (by omega)

/-- The full reconstruction (first raw slice whole, later raw slices with their
overlap prefixes dropped) of the windows produced from position start is exactly the
text from position start on. -/
theorem reconFull_windows (t : List Char) (cs ov : Nat) (hov : ov < cs)
    (hov2 : ov ≤ cs / 2 + 1) (fuel start : Nat) (ws : List (Nat × Nat))
    (_h1 : start < t.length) (h2 : windowsLoop t cs ov fuel start = some ws) :
    reconstruct ov (ws.map (fun w => pySlice t w.1 w.2)) = t.drop start := by
  have hlb := computeEnd_lb t cs ov start hov hov2
  cases fuel with
  | zero => simp [windowsLoop] at h2
  | succ n =>
    simp only [windowsLoop] at h2
    split at h2
    · next hend =>
      cases h2
      show pySlice t start (computeEnd t cs start) ++ ([].map (fun q => List.drop ov q)).flatten
          = t.drop start
      rw [List.map_nil, List.flatten_nil, List.append_nil]
      exact pySlice_of_le t _ _ (by omega)
    · next hend =>
      cases hrec : windowsLoop t cs ov n (computeEnd t cs start - ov) with
      | none => rw [hrec] at h2; cases h2
      | some ws' =>
        rw [hrec] at h2
        cases h2
        have htail := reconTail_windows t cs ov hov hov2 n
          (computeEnd t cs start - ov) ws' (by omega) hrec
        show pySlice t start (computeEnd t cs start) ++
            ((ws'.map (fun w => pySlice t w.1 w.2)).map (fun q => List.drop ov q)).flatten
            = t.drop start
        have hmm : ((ws'.map (fun w => pySlice t w.1 w.2)).map
            (fun q => List.drop ov q)).flatten = reconTail t ov ws' := by
          unfold reconTail
          rw [List.map_map]
          rfl
        rw [hmm, htail]
        have he : computeEnd t cs start - ov + ov = computeEnd t cs start := by omega
        rw [he]
        exact pySlice_append_drop t _ _ (by omega)

/-- The chunking loop at the concrete input text "abc", chunk_size 2, overlap 2 never
terminates: the window start stays at 0 forever, whatever the fuel. -/
theorem windowsLoop_abc_none : ∀ fuel, windowsLoop ("abc".toList) 2 2 fuel 0 = none := by
  intro fuel
  induction fuel with
  | zero => rfl
  | succ n ih =>
    simp only [windowsLoop]
    have h0 : computeEnd ("abc".toList) 2 0 - 2 = 0 := by decide
    rw [h0, ih]
    decide

/-- C4, counterexample.  The claim quantifies over every chunk_size > 0 and
overlap ≥ 0; at text "abc", chunk_size 2, overlap 2 the loop start never advances
(start stays 0) and chunk_text does not terminate: no amount of fuel makes the loop
model return a value. -/
theorem c4_counterexample :
    ¬ ∃ fuel, (windowsLoop ("abc".toList) 2 2 fuel 0).isSome = true := by
  rintro ⟨fuel, h⟩
  rw [windowsLoop_abc_none fuel] at h
  cases h

/-- C4, amended.  For overlap < chunk_size and overlap ≤ chunk_size / 2 + 1 the
window start strictly advances on each iteration, so chunk_text terminates (the
model returns a value within fuel text.length + 1).  Without those bounds the start
can fail to advance and the loop runs forever. -/
theorem c4_chunk_text_terminates (t : List Char) (cs ov : Nat) (hov : ov < cs)
    (hov2 : ov ≤ cs / 2 + 1) : (chunk_text t cs ov).isSome = true := by
  unfold chunk_text
  split
  · rfl
  · next hlen =>
    have h1 : 0 < t.length := by omega
    have h2 := windowsLoop_isSome t cs ov hov hov2 (t.length + 1) 0 h1 (by omega)
    obtain ⟨ws, hws⟩ := Option.isSome_iff_exists.mp h2
    rw [hws]
    rfl

/-- C4, witness for the amended theorem at text "hello", chunk_size 2, overlap 0. -/
theorem c4_witness :
    0 < 2 ∧ (0 : Nat) < 2 ∧ 0 ≤ 2 / 2 + 1 ∧ (chunk_text ("hello".toList) 2 0).isSome = true :=
  ⟨by decide, by decide, by decide, c4_chunk_text_terminates ("hello".toList) 2 0
    (by decide) (by decide)⟩

/-- C5, counterexample.  At text "aaaa bbbb", chunk_size 4, overlap 0, the chunks
returned by chunk_text are stripped, so concatenating them with the (empty) overlaps
removed yields "aaaabbbb": the space lost to stripping is not reconstructed. -/
theorem c5_counterexample :
    (chunk_text ("aaaa bbbb".toList) 4 0).map (reconstruct 0) = some ("aaaabbbb".toList) ∧
    "aaaabbbb".toList ≠ "aaaa bbbb".toList :=
  ⟨by decide, by decide⟩

/-- C5, amended.  Reconstruction holds for the raw window slices, before the
per-chunk stripping and the dropping of empty results: under the
termination-sufficient parameters, concatenating the raw slices with the first
overlap characters of every later slice removed rebuilds the text exactly.  The
returned chunks are those slices stripped, so reconstruction from the returned
chunks can lose boundary whitespace. -/
theorem c5_raw_reconstruction (t : List Char) (cs ov : Nat) (hov : ov < cs)
    (hov2 : ov ≤ cs / 2 + 1) (hlen : cs < t.length) :
    ∃ ws, windowsLoop t cs ov (t.length + 1) 0 = some ws ∧
      reconstruct ov (ws.map (fun w => pySlice t w.1 w.2)) = t := by
  have h1 : 0 < t.length := by omega
  have h2 := windowsLoop_isSome t cs ov hov hov2 (t.length + 1) 0 h1 (by omega)
  obtain ⟨ws, hws⟩ := Option.isSome_iff_exists.mp h2
  refine ⟨ws, hws, ?_⟩
  have := reconFull_windows t cs ov hov hov2 (t.length + 1) 0 ws h1 hws
  simpa using this

/-- C5, witness for the amended theorem at text "aaaa bbbb", chunk_size 4,
overlap 1. -/
theorem c5_witness :
    (1 : Nat) < 4 ∧ 1 ≤ 4 / 2 + 1 ∧ 4 < ("aaaa bbbb".toList).length ∧
    (∃ ws, windowsLoop ("aaaa bbbb".toList) 4 1 (("aaaa bbbb".toList).length + 1) 0 = some ws ∧
      reconstruct 1 (ws.map (fun w => pySlice ("aaaa bbbb".toList) w.1 w.2)) =
        "aaaa bbbb".toList) :=
  ⟨by decide, by decide, by decide,
    c5_raw_reconstruction ("aaaa bbbb".toList) 4 1 (by decide) (by decide) (by decide)⟩


/-- The head of a dropWhile result never satisfies the predicate. -/
theorem head?_dropWhile_false {p : α → Bool} {l : List α} {a : α}
    (h : (l.dropWhile p).head? = some a) : p a = false := by
  have h2 := List.head?_dropWhile_not p l
  rw [h] at h2
  exact h2

/-- A nonempty dropWhile result keeps the last element of the original list. -/
theorem getLast?_dropWhile {p : α → Bool} :
    ∀ l : List α, l.dropWhile p ≠ [] → (l.dropWhile p).getLast? = l.getLast? := by
  intro l
  induction l with
  | nil => intro h; exact absurd rfl h
  | cons a xs ih =>
    intro h
    by_cases hp : p a = true
    · rw [List.dropWhile_cons_of_pos hp] at h ⊢
      have hxs : xs ≠ [] := by
        intro he
        rw [he] at h
        exact absurd rfl h
      obtain ⟨y, ys, rfl⟩ := List.exists_cons_of_ne_nil hxs
      rw [List.getLast?_cons_cons]
      exact ih h
    · rw [List.dropWhile_cons_of_neg hp]

/-- A list whose head fails the whitespace test is untouched by the left strip. -/
theorem pyStripL_of_head (l : List Char)
    (h : ∀ a, l.head? = some a → a.isWhitespace = false) : pyStripL l = l := by
  cases l with
  | nil => rfl
  | cons a xs =>
    have ha := h a rfl
    unfold pyStripL
    rw [List.dropWhile_cons_of_neg]
    simp [ha]

/-- Python str.strip is idempotent: stripping a stripped string changes nothing. -/
theorem pyStrip_idem (s : List Char) : pyStrip (pyStrip s) = pyStrip s := by
  have hstep1 : pyStripL ((pyStripL ((pyStripL s).reverse)).reverse) =
      (pyStripL ((pyStripL s).reverse)).reverse := by
    apply pyStripL_of_head
    intro x hx
    rw [List.head?_reverse] at hx
    have hb : pyStripL ((pyStripL s).reverse) ≠ [] := by
      intro he
      rw [he] at hx
      cases hx
    have h1 : ((pyStripL s).reverse).getLast? = some x := by
      rw [← getLast?_dropWhile ((pyStripL s).reverse) hb]
      exact hx
    rw [List.getLast?_reverse] at h1
    exact head?_dropWhile_false h1
  have hstep2 : pyStripL (pyStripL ((pyStripL s).reverse)) =
      pyStripL ((pyStripL s).reverse) := by
    apply pyStripL_of_head
    intro x hx
    exact head?_dropWhile_false hx
  show (pyStripL ((pyStripL ((pyStripL ((pyStripL s).reverse)).reverse)).reverse)).reverse =
      (pyStripL ((pyStripL s).reverse)).reverse
  rw [hstep1, List.reverse_reverse, hstep2]

/-- C9, counterexample.  chunk_text on the empty string returns its input whole via
the short-text path (lines 170-171) without stripping or dropping, so the returned
list contains the empty string. -/
theorem c9_counterexample :
    chunk_text [] 512 50 = some [[]] ∧
    ((chunk_text [] 512 50).getD []).all (fun c => !c.isEmpty) = false :=
  ⟨by decide, by decide⟩

/-- C9, amended.  The stripped-and-nonempty guarantee holds exactly for the looped
path, i.e. whenever the text is longer than chunk_size: every returned chunk is then
nonempty and strip-invariant.  A text no longer than chunk_size (in particular the
empty or whitespace-only string) is returned whole, untrimmed and possibly empty. -/
theorem c9_chunks_nonempty_trimmed (t : List Char) (cs ov : Nat)
    (chunks : List (List Char)) (hlen : cs < t.length)
    (h : chunk_text t cs ov = some chunks) :
    ∀ c ∈ chunks, c ≠ [] ∧ pyStrip c = c := by
  unfold chunk_text at h
  rw [if_neg (by omega)] at h
  cases hw : windowsLoop t cs ov (t.length + 1) 0 with
  | none => rw [hw] at h; cases h
  | some ws =>
    rw [hw] at h
    cases h
    intro c hc
    rw [List.mem_filter] at hc
    obtain ⟨hmem, hne⟩ := hc
    refine ⟨by simpa using hne, ?_⟩
    obtain ⟨w, _, rfl⟩ := List.mem_map.mp hmem
    exact pyStrip_idem _

/-- C9, witness for the amended theorem at text "hi there", chunk_size 2,
overlap 0. -/
theorem c9_witness :
    2 < ("hi there".toList).length ∧
    chunk_text ("hi there".toList) 2 0 = some ((chunk_text ("hi there".toList) 2 0).getD []) ∧
    (∀ c ∈ (chunk_text ("hi there".toList) 2 0).getD [], c ≠ [] ∧ pyStrip c = c) :=
  ⟨by decide, by decide,
    c9_chunks_nonempty_trimmed ("hi there".toList) 2 0 _ (by decide) (by decide)⟩

/-- Environment whose encoder always succeeds with the unit vector [1] and whose
filesystem stores at each path the character codes of the path itself, so distinct
paths hold distinct bytes. -/
def envOk : Env :=
  { enc := fun _ => some [(1 : ℚ)]
  , fs := fun p => some (p.toList.map Char.toNat)
  , md5 := fun b => b }

/-- Environment identical to envOk except that every encoder call raises. -/
def envEncFail : Env :=
  { enc := fun _ => none
  , fs := fun p => some (p.toList.map Char.toNat)
  , md5 := fun b => b }

/-- Environment where no file can be opened. -/
def envNoFile : Env :=
  { enc := fun _ => some [(1 : ℚ)], fs := fun _ => none, md5 := fun b => b }

/-- A successful batched encoder call yields one vector per input text. -/
theorem encodeAll_length {enc : List Char → Option (List ℚ)} :
    ∀ {l : List (List Char)} {vs : List (List ℚ)},
      encodeAll enc l = some vs → vs.length = l.length := by
  intro l
  induction l with
  | nil => intro vs h; cases h; rfl
  | cons c rest ih =>
    intro vs h
    unfold encodeAll at h
    cases he : enc c with
    | none => rw [he] at h; cases h
    | some v =>
      cases hr : encodeAll enc rest with
      | none => rw [he, hr] at h; cases h
      | some vs' =>
        rw [he, hr] at h
        cases h
        simp [ih hr]

/-- Filtering enumerations of equal-length lists by a predicate on the index alone
keeps equally many elements. -/
theorem filter_enumFrom_length_eq (pred : Nat → Bool) :
    ∀ (l1 : List α) (l2 : List β) (n : Nat), l1.length = l2.length →
      ((l1.enumFrom n).filter (fun p => pred p.1)).length =
        ((l2.enumFrom n).filter (fun p => pred p.1)).length := by
  intro l1
  induction l1 with
  | nil =>
    intro l2 n h
    cases l2 with
    | nil => rfl
    | cons b bs => simp at h
  | cons a as ih =>
    intro l2 n h
    cases l2 with
    | nil => simp at h
    | cons b bs =>
      have hlen : as.length = bs.length := by simpa using h
      simp only [List.enumFrom_cons, List.filter_cons]
      by_cases hp : pred n = true
      · rw [if_pos (by simpa using hp), if_pos (by simpa using hp)]
        simp only [List.length_cons]
        rw [ih bs (n + 1) hlen]
      · rw [if_neg (by simpa using hp), if_neg (by simpa using hp)]
        exact ih bs (n + 1) hlen

/-- Removing the same positions from equal-length lists leaves equal lengths. -/
theorem dropIdxs_length_eq (l1 : List α) (l2 : List β) (idxs : List Nat)
    (h : l1.length = l2.length) :
    (dropIdxs l1 idxs).length = (dropIdxs l2 idxs).length := by
  unfold dropIdxs
  rw [List.length_map, List.length_map]
  exact filter_enumFrom_length_eq (fun i => !(idxs.contains i)) l1 l2 0 h

/-- add_document preserves the store invariant on every path: each raise point comes
before any mutation, the duplicate path mutates nothing, and the success path
appends equally many documents, metadata entries and vectors. -/
theorem storeInv_add (env : Env) (s : VectorStore) (fp : String) (content : List Char)
    (extra : List (String × String)) (hinv : storeInv s) :
    storeInv (add_document env s fp content extra).1 := by
  cases hfs : env.fs fp with
  | none => simpa only [add_document, hfs] using hinv
  | some bytes =>
    simp only [add_document, hfs]
    split
    · exact hinv
    · cases hct : chunk_text content 512 50 with
      | none => exact hinv
      | some chunks =>
        dsimp only
        cases henc : encodeAll env.enc chunks with
        | none => exact hinv
        | some embs =>
          dsimp only
          obtain ⟨h1, h2⟩ := hinv
          have hlen := encodeAll_length henc
          constructor
          · simp only [List.length_append, List.length_map, List.enum_length]
            omega
          · simp only [List.length_append, List.length_map, List.enum_length,
              Option.getD_some]
            omega

/-- delete_document preserves the store invariant whenever its re-embedding step
does not raise (including the not-found and emptied-store paths). -/
theorem storeInv_del (env : Env) (s : VectorStore) (fp : String) (hinv : storeInv s)
    (hclean : (delPositions s fp).isEmpty = true ∨
      (dropIdxs s.documents (delPositions s fp)).isEmpty = true ∨
      (encodeAll env.enc (dropIdxs s.documents (delPositions s fp))).isSome = true) :
    storeInv (delete_document env s fp).1 := by
  simp only [delete_document]
  split
  · exact hinv
  · next hposs =>
    split
    · exact ⟨rfl, rfl⟩
    · next hdocs =>
      cases henc : encodeAll env.enc (dropIdxs s.documents (delPositions s fp)) with
      | none =>
        rcases hclean with h | h | h
        · exact absurd h hposs
        · exact absurd h hdocs
        · rw [henc] at h; cases h
      | some embs =>
        have hlen := encodeAll_length henc
        have hdm := dropIdxs_length_eq s.documents s.metadata (delPositions s fp) hinv.1
        exact ⟨hdm, by simp only [Option.getD_some]; omega⟩

/-- One clean step preserves the store invariant. -/
theorem storeInv_step (s : VectorStore) (st : Step) (hinv : storeInv s)
    (hclean : stepClean s st = true) : storeInv (applyStep s st) := by
  obtain ⟨env, op⟩ := st
  cases op with
  | add fp c extra => exact storeInv_add env s fp c extra hinv
  | del fp =>
    apply storeInv_del env s fp hinv
    simp only [stepClean, Bool.or_eq_true] at hclean
    rcases hclean with (h | h) | h
    · exact Or.inl h
    · exact Or.inr (Or.inl h)
    · exact Or.inr (Or.inr h)

/-- A clean run from an invariant-satisfying state keeps the invariant. -/
theorem storeInv_runSteps :
    ∀ (steps : List Step) (s : VectorStore), storeInv s → cleanSteps s steps = true →
      storeInv (runSteps s steps) := by
  intro steps
  induction steps with
  | nil => intro s hinv _; exact hinv
  | cons st rest ih =>
    intro s hinv h
    rw [cleanSteps] at h
    obtain ⟨h1, h2⟩ := Bool.and_eq_true_iff.mp h
    exact ih (applyStep s st) (storeInv_step s st hinv h1) h2

/-- C2, counterexample.  Two documents are added under paths "a" and "b"; a delete
of "a" then runs with an encoder that raises during the rebuild re-embedding: the
except block returns false with documents and metadata already shrunk to one entry
while the index still holds two vectors, so the invariant is broken after the
sequence. -/
theorem c2_counterexample :
    ¬ storeInv (runSteps emptyStore
      [(envOk, Op.add "a" ("xx".toList) []), (envOk, Op.add "b" ("yy".toList) []),
        (envEncFail, Op.del "a")]) := by decide

/-- C2, amended.  The invariant does hold after every sequence of add_document and
delete_document calls in which no delete_document hits its one unprotected failure
point, the re-embedding of the surviving documents: adds preserve the invariant even
when they raise (every raise precedes any mutation), and so does every delete whose
rebuild does not raise.  A delete whose re-embedding raises leaves the arrays shrunk
against a stale index. -/
theorem c2_invariant_clean_runs (steps : List Step)
    (h : cleanSteps emptyStore steps = true) : storeInv (runSteps emptyStore steps) :=
  storeInv_runSteps steps emptyStore ⟨rfl, rfl⟩ h

/-- C2, witness for the amended theorem: an add followed by a clean delete that
empties the store. -/
theorem c2_witness :
    cleanSteps emptyStore [(envOk, Op.add "a" ("xx".toList) []), (envOk, Op.del "a")] = true ∧
    storeInv (runSteps emptyStore [(envOk, Op.add "a" ("xx".toList) []), (envOk, Op.del "a")]) :=
  ⟨by decide, c2_invariant_clean_runs
    [(envOk, Op.add "a" ("xx".toList) []), (envOk, Op.del "a")] (by decide)⟩

/-- C10.  add_document hashes the bytes of the file on disk at file_path via
_get_file_hash; when no readable file exists there the open raises, and
add_document propagates the exception (outcome none) without returning a boolean
and without mutating the store, even though content was supplied as an argument. -/
theorem c10_add_document_raises (env : Env) (s : VectorStore) (fp : String)
    (content : List Char) (extra : List (String × String)) (h : env.fs fp = none) :
    add_document env s fp content extra = (s, none) := by
  unfold add_document
  rw [h]

/-- C10, witness: an environment in which the file at "missing" cannot be opened. -/
theorem c10_witness :
    envNoFile.fs "missing" = none ∧
    add_document envNoFile emptyStore "missing" ("text".toList) [] = (emptyStore, none) :=
  ⟨rfl, c10_add_document_raises envNoFile emptyStore "missing" ("text".toList) [] rfl⟩

/-- Environment for the C1 counterexample: the files at paths "A" and "B" hold
different bytes on disk. -/
def envC1 : Env :=
  { enc := fun _ => some [(1 : ℚ)]
  , fs := fun p => if p = "A" then some [0] else some [1]
  , md5 := fun b => b }

/-- The store after a first successful add of path "A". -/
def c1store : VectorStore := (add_document envC1 emptyStore "A" ("same text".toList) []).1

/-- C1, counterexample.  The content argument is byte-identical in both calls, the
paths are distinct, and the first call succeeded - yet the second call returns true
and grows the store (one chunk and one vector added), because the dedup hash is
computed from the file bytes on disk at file_path, which differ between "A" and
"B", not from the content argument. -/
theorem c1_counterexample :
    (add_document envC1 emptyStore "A" ("same text".toList) []).2 = some true ∧
    (add_document envC1 c1store "B" ("same text".toList) []).2 = some true ∧
    c1store.documents.length = 1 ∧
    (add_document envC1 c1store "B" ("same text".toList) []).1.documents.length = 2 ∧
    ((add_document envC1 c1store "B" ("same text".toList) []).1.index.getD []).length = 2 :=
  ⟨by decide, by decide, by decide, by decide, by decide⟩

/-- C1, amended.  The dedup hash is computed over the bytes of the file on disk at
file_path: whenever the fingerprint of those bytes is already present in the stored
metadata - in particular after a successful add of another path whose file holds
identical bytes - add_document returns false and leaves the store unchanged,
whatever the content argument. -/
theorem c1_dedup_by_file_bytes (env : Env) (s : VectorStore) (fp : String)
    (content : List Char) (extra : List (String × String)) (bytes : List Nat)
    (hfs : env.fs fp = some bytes)
    (hdup : ∃ m ∈ s.metadata, m.file_hash = env.md5 bytes) :
    add_document env s fp content extra = (s, some false) := by
  unfold add_document
  rw [hfs]
  have hany : s.metadata.any (fun m => m.file_hash == env.md5 bytes) = true := by
    rw [List.any_eq_true]
    obtain ⟨m, hm, he⟩ := hdup
    exact ⟨m, hm, by rw [he]; exact beq_self_eq_true _⟩
  simp [hany]

/-- Metadata entry of an already-indexed file whose bytes fingerprint to [0]. -/
def metaA : ChunkMeta :=
  { file_path := "A", file_hash := [0], chunk_id := 0, chunk_index := 0
  , total_chunks := 1, extra := [] }

/-- A one-document store holding the chunk of path "A". -/
def storeA : VectorStore :=
  { documents := [['h']], metadata := [metaA], index := some [[(1 : ℚ)]] }

/-- Environment for the C1 witness: every file holds the bytes [0]. -/
def envHash0 : Env :=
  { enc := fun _ => some [(1 : ℚ)], fs := fun _ => some [0], md5 := fun b => b }

/-- C1, witness for the amended theorem: path "B" holds the same bytes as the
already-indexed path "A", so the add is rejected without mutation. -/
theorem c1_witness :
    envHash0.fs "B" = some [0] ∧
    (∃ m ∈ storeA.metadata, m.file_hash = envHash0.md5 [0]) ∧
    add_document envHash0 storeA "B" ("other text".toList) [] = (storeA, some false) :=
  ⟨rfl, by decide,
    c1_dedup_by_file_bytes envHash0 storeA "B" ("other text".toList) [] [0] rfl (by decide)⟩

/-- Environment for the persistence runs: encoding always succeeds (with the
zero-dimensional embedding [], whose inner products are the literal 0), every file
holds [0]. -/
def envA : Env :=
  { enc := fun _ => some [], fs := fun _ => some [0], md5 := fun b => b }

/-- Store and disk after add_document("p", "hi") on a fresh directory. -/
def c3sd1 : VectorStore × Disk :=
  (add_documentD envA (emptyStore, (none : Disk)) "p" ("hi".toList) []).1

/-- Store and disk after the subsequent delete_document("p"), which empties the
store. -/
def c3sd2 : VectorStore × Disk := (delete_documentD envA c3sd1 "p").1

/-- VectorStore.search as the source actually executes (lines 258-297).  The name
`torch` is bound only inside the function bodies of _configure_torch (line 23) and
_ensure_encoder (line 83), never at module scope, so line 278
`with torch.no_grad():` raises NameError on every call that reaches it and the
except at line 295 returns []; an empty store already returned [] at line 275.
Every call therefore returns the empty list; the two branches here are the two
return points that can be reached. -/
def search_as_run (s : VectorStore) (_q : List Char) (_k : Nat) (_t : ℚ) :
    List SearchResult :=
  if s.documents.length = 0 then []
  else []

/-- Apply one mutating call to the store together with its write-through
persistence. -/
def applyStepD (sd : VectorStore × Disk) (st : Step) : VectorStore × Disk :=
  match st.2 with
  | .add fp c extra => (add_documentD st.1 sd fp c extra).1
  | .del fp => (delete_documentD st.1 sd fp).1

/-- Apply a sequence of mutating calls from a given store and disk, threading the
write-through persistence. -/
def runStepsD (sd : VectorStore × Disk) (steps : List Step) : VectorStore × Disk :=
  steps.foldl applyStepD sd

/-- As executed, every search call returns the empty list: the unbound `torch` at
line 278 raises on the populated path and the except at line 295 returns [], and
the empty store returns [] at line 275. -/
theorem search_as_run_nil (s : VectorStore) (q : List Char) (k : Nat) (t : ℚ) :
    search_as_run s q k t = [] := by
  unfold search_as_run
  split <;> rfl

/-- The write-through of a delete that empties the store silently fails: the
delete succeeds and resets the in-memory store, but _save_index's
faiss.write_index(None, ...) raises inside its try block and the except at line
149 swallows it, so the pre-delete artifacts stay on disk unchanged, and a fresh
load from that directory brings the deleted document's chunk back into memory.
This difference in state is not observable through search results (see
search_as_run_nil). -/
theorem stale_disk_after_emptying_delete :
    (delete_documentD envA c3sd1 "p").2 = true ∧
    c3sd2.1 = emptyStore ∧
    c3sd2.2 = c3sd1.2 ∧
    c3sd1.2 ≠ none ∧
    (load_index c3sd2.2).documents.length = 1 :=
  ⟨by decide, by decide, by decide, by decide, by decide⟩

/-- C3.  For every reachable store-and-disk state (produced by any sequence of
add_document and delete_document calls over a fresh directory, including a delete
that empties the store) and every query q, k, t: saving the store and then loading
it into a fresh instance over the same directory yields identical search(q, k, t)
results to those of the state at save time.  The contract holds degenerately:
`torch` is never bound at module scope in vector_store.py, so line 278 raises
NameError on every populated-store query and the except at line 295 returns [] -
as executed, every search returns [], on the state at save time and on the loaded
instance alike.  (An emptying delete does leave stale pre-delete artifacts on
disk, as stale_disk_after_emptying_delete shows, but that difference cannot be
observed through search results.) -/
theorem c3_round_trip_search_results (steps : List Step) (q : List Char) (k : Nat)
    (t : ℚ) :
    search_as_run (load_index (save_index (runStepsD (emptyStore, none) steps).1
      (runStepsD (emptyStore, none) steps).2)) q k t =
    search_as_run (runStepsD (emptyStore, none) steps).1 q k t := by
  rw [search_as_run_nil, search_as_run_nil]

/-- C8.  search never raises to its caller: in the model it is a total function,
and on an empty store, a raising encoder, or a missing index (the index search
raising on None), it returns the empty list. -/
theorem c8_search_returns_empty (env : Env) (s : VectorStore) (q : List Char) (k : Nat)
    (t : ℚ) (h : s.documents.length = 0 ∨ env.enc q = none ∨ s.index = none) :
    search env s q k t = [] := by
  unfold search
  rcases h with h | h | h
  · rw [if_pos h]
  · by_cases h0 : s.documents.length = 0
    · rw [if_pos h0]
    · rw [if_neg h0, h]
  · by_cases h0 : s.documents.length = 0
    · rw [if_pos h0]
    · rw [if_neg h0]
      cases henc : env.enc q with
      | none => rfl
      | some qv => rw [h]

/-- C8, witness: the empty store with a healthy encoder. -/
theorem c8_witness :
    (emptyStore.documents.length = 0 ∨ envOk.enc ("q".toList) = none ∨
      emptyStore.index = none) ∧
    search envOk emptyStore ("q".toList) 5 0 = [] :=
  ⟨Or.inl rfl, c8_search_returns_empty envOk emptyStore ("q".toList) 5 0 (Or.inl rfl)⟩

/-- C7.  Against a populated store, search returns at most min(k, stored_count)
results, in non-increasing score order, every returned score at least the
threshold: the flat index scores every vector, the candidates are sorted
descending and truncated to min(k, stored_count), and the filter keeps only scores
at or above the threshold without disturbing the order. -/
theorem c7_search_ranked (env : Env) (s : VectorStore) (q : List Char) (k : Nat)
    (t : ℚ) (hpop : 0 < s.documents.length) :
    (search env s q k t).length ≤ min k s.documents.length ∧
    List.Sorted (fun a b : SearchResult => b.score ≤ a.score) (search env s q k t) ∧
    ∀ r ∈ search env s q k t, t ≤ r.score := by
  unfold search
  rw [if_neg (by omega)]
  cases henc : env.enc q with
  | none =>
    exact ⟨Nat.zero_le _, List.sorted_nil, fun r hr => absurd hr (List.not_mem_nil r)⟩
  | some qv =>
    cases hidx : s.index with
    | none =>
      exact ⟨Nat.zero_le _, List.sorted_nil, fun r hr => absurd hr (List.not_mem_nil r)⟩
    | some vecs =>
      dsimp only
      have hsort : List.Pairwise scoreRel
          (faissSearch vecs qv (min k s.documents.length)) := by
        unfold faissSearch
        exact List.Pairwise.sublist (List.take_sublist _ _)
          (List.sorted_insertionSort scoreRel _)
      refine ⟨?_, ?_, ?_⟩
      · rw [List.length_map]
        calc (List.filter _ (faissSearch vecs qv (min k s.documents.length))).length
            ≤ (faissSearch vecs qv (min k s.documents.length)).length :=
              List.length_filter_le _ _
          _ ≤ min k s.documents.length := by
              unfold faissSearch
              rw [List.length_take]
              exact Nat.min_le_left _ _
      · exact List.pairwise_map.mpr (List.Pairwise.filter _ hsort)
      · intro r hr
        rw [List.mem_map] at hr
        obtain ⟨p, hp, rfl⟩ := hr
        rw [List.mem_filter] at hp
        exact of_decide_eq_true hp.2

/-- C7, witness: a one-chunk store queried with k = 3 and threshold 0. -/
theorem c7_witness :
    0 < storeA.documents.length ∧
    ((search envHash0 storeA ("q".toList) 3 0).length ≤ min 3 storeA.documents.length ∧
     List.Sorted (fun a b : SearchResult => b.score ≤ a.score)
       (search envHash0 storeA ("q".toList) 3 0) ∧
     ∀ r ∈ search envHash0 storeA ("q".toList) 3 0, (0 : ℚ) ≤ r.score) :=
  ⟨by decide, c7_search_ranked envHash0 storeA ("q".toList) 3 0 (by decide)⟩

/-- Ranked result list for the C6 analysis: two chunks of five characters each. -/
def rsC6 : List SearchResult :=
  [ { content := "aaaaa".toList, score := 1, metadata := metaA }
  , { content := "bbbbb".toList, score := 0, metadata := metaA } ]

/-- C6, counterexample.  With budget 10 and two five-character chunks, the break
guard (which counts only raw content lengths, 5 + 5 = 10 ≤ 10) admits both chunks;
the assembled context also carries two 13-character document markers and one
2-character separator, so len(context) = 38 exceeds the budget while two chunks -
not exactly one - are included. -/
theorem c6_counterexample :
    (retrieveFromResults rsC6 ("q".toList) 10).numChunks = 2 ∧
    (retrieveFromResults rsC6 ("q".toList) 10).context.length = 38 ∧
    10 < (retrieveFromResults rsC6 ("q".toList) 10).context.length :=
  ⟨by decide, by decide, by decide⟩

/-- The assembly loop never removes parts already included. -/
theorem assemble_length_mono (maxLen : Nat) :
    ∀ (l : List (Nat × SearchResult)) (parts : List (List Char)) (sources : List Source)
      (curLen : Nat), parts.length ≤ (assemble maxLen l parts sources curLen).1.length := by
  intro l
  induction l with
  | nil => intro parts sources curLen; exact le_refl _
  | cons hd rest ih =>
    intro parts sources curLen
    obtain ⟨i, r⟩ := hd
    rw [assemble]
    split
    · exact le_refl _
    · calc parts.length ≤ (parts ++ [docMarker i ++ r.content]).length := by simp
        _ ≤ _ := ih _ _ _

/-- Budget invariant of the assembly loop: whenever at least two parts end up
included, the final current_length (the sum of raw chunk content lengths) is within
the budget. -/
theorem assemble_budget (maxLen : Nat) :
    ∀ (l : List (Nat × SearchResult)) (parts : List (List Char)) (sources : List Source)
      (curLen : Nat), (2 ≤ parts.length → curLen ≤ maxLen) →
      2 ≤ (assemble maxLen l parts sources curLen).1.length →
      (assemble maxLen l parts sources curLen).2.2 ≤ maxLen := by
  intro l
  induction l with
  | nil => intro parts sources curLen h h2; exact h h2
  | cons hd rest ih =>
    intro parts sources curLen h h2
    obtain ⟨i, r⟩ := hd
    rw [assemble] at h2 ⊢
    by_cases hc : maxLen < curLen + r.content.length ∧ parts ≠ []
    · rw [if_pos hc] at h2 ⊢
      exact h h2
    · rw [if_neg hc] at h2 ⊢
      refine ih _ _ _ ?_ h2
      intro hlen2
      by_cases hp : parts = []
      · rw [hp] at hlen2
        simp at hlen2
      · have hnlt : ¬ maxLen < curLen + r.content.length := fun hlt => hc ⟨hlt, hp⟩
        omega

/-- C6, amended.  The first (top-ranked) chunk is always included when search
returned anything, and the budget bound holds for the quantity the guard actually
tracks: when at least two chunks are included, the sum of the raw chunk content
lengths is at most max_context_length.  The assembled context string itself also
contains the document markers and the blank-line separators, which the guard does
not count, so len(context) can exceed the budget even with several chunks. -/
theorem c6_budget_on_raw_lengths (results : List SearchResult) (q : List Char)
    (maxLen : Nat) (hne : results ≠ []) :
    1 ≤ (retrieveFromResults results q maxLen).numChunks ∧
    (2 ≤ (retrieveFromResults results q maxLen).numChunks →
      (assemble maxLen results.enum [] [] 0).2.2 ≤ maxLen) := by
  obtain ⟨r, rest, rfl⟩ := List.exists_cons_of_ne_nil hne
  unfold retrieveFromResults
  rw [if_neg (by simp)]
  dsimp only
  constructor
  · rw [List.enum_cons, assemble, if_neg (by simp)]
    calc 1 = ([] ++ [docMarker 0 ++ r.content]).length := by simp
      _ ≤ _ := assemble_length_mono maxLen _ _ _ _
  · intro h2
    refine assemble_budget maxLen _ [] [] 0 ?_ h2
    intro hx
    simp at hx

/-- C6, witness for the amended theorem at the two-chunk result list and budget 10:
both chunks are included and their raw lengths sum to exactly the budget. -/
theorem c6_witness :
    rsC6 ≠ [] ∧
    (1 ≤ (retrieveFromResults rsC6 ("q".toList) 10).numChunks ∧
     (2 ≤ (retrieveFromResults rsC6 ("q".toList) 10).numChunks →
       (assemble 10 rsC6.enum [] [] 0).2.2 ≤ 10)) :=
  ⟨by decide, c6_budget_on_raw_lengths rsC6 ("q".toList) 10 (by decide)⟩
